import Mathlib

/-!
A shallow embedding of `sioctl-rs` (`src/src/lib.rs`), a Rust wrapper around
the sndio `sioctl_open(3)` API, together with proofs about its control
registry, FFI callback entry points, polling loop and watcher lifecycle.

Machine integers are modelled as `Nat` (with explicit `% 2^w` where the Rust
code truncates), the `HashMap<Address, Control>` as an association list with
unique keys (inserts from the empty map preserve uniqueness; iteration order
of the hash map is irrelevant to every property proved here), and the
registered change-callback closure as a `Bool` flag recording whether one is
installed, with each operation returning the list of `Control` values the
callback would have been invoked with.
-/

namespace SioctlModel

/-- Control address: the Rust `struct Address(c_uint)` newtype (lib.rs:61-62). -/
abbrev Address := Nat

/-- A sndio control with its value: `pub struct Control` (lib.rs:70-75).
`value` is a `u8` in the source; modelled as `Nat`, with the `u8` truncation
performed where the source performs it (at the FFI boundary, `value as u8`). -/
structure Control where
  group : String
  name : String
  func : String
  value : Nat
deriving DecidableEq, Repr

/-- The lock-protected state `struct Inner` (lib.rs:192-195): the map from
addresses to controls and the optional change-callback.  The callback closure
is modelled by whether it is set (`callback = true` iff `Some(..)`). -/
structure Inner where
  controls : List (Address × Control)
  callback : Bool
deriving DecidableEq, Repr

/-- The registry as built by `Sioctl::new` (lib.rs:121-124): empty map, no
callback. -/
def emptyInner : Inner := { controls := [], callback := false }

/-- Lookup in the registry map: `HashMap::get` (lib.rs:218). -/
def lookupCtl : List (Address × Control) → Address → Option Control
  | [], _ => none
  | (a', c) :: rest, a => if a' = a then some c else lookupCtl rest a

/-- Insert-or-replace: `HashMap::insert` (lib.rs:206). -/
def insertCtl : List (Address × Control) → Address → Control → List (Address × Control)
  | [], a, c => [(a, c)]
  | (a', c') :: rest, a, c =>
    if a' = a then (a, c) :: rest else (a', c') :: insertCtl rest a c

/-- Update only the `value` field of the entry at `a`, if present:
`HashMap::entry(address).and_modify(|control| control.value = value)`
(lib.rs:211-214).  An absent address leaves the map untouched. -/
def modifyValue : List (Address × Control) → Address → Nat → List (Address × Control)
  | [], _, _ => []
  | (a', c) :: rest, a, v =>
    if a' = a then (a', { c with value := v }) :: rest
    else (a', c) :: modifyValue rest a v

/-- Snapshot of current controls: `Sioctl::controls` (lib.rs:152-155) clones
all values out of the map under the lock. -/
def controls (s : Inner) : List Control := s.controls.map Prod.snd

/-- Description upsert: `Shared::on_parameter` (lib.rs:204-207).  Inserts or
replaces the `Control` at `address`; never touches the callback.  The second
component is the list of callback invocations performed (always empty here:
`on_parameter` contains no callback call). -/
def on_parameter (s : Inner) (address : Address) (control : Control) :
    Inner × List Control :=
  ({ s with controls := insertCtl s.controls address control }, [])

/-- Value update: `Shared::on_value` (lib.rs:209-223).  Updates the `value`
field at `address` if present, then (still under the lock) looks the entry up
again and invokes the registered callback, if any, with the now-updated
control.  The second component lists the controls the callback is invoked
with, in order. -/
def on_value (s : Inner) (address : Address) (value : Nat) : Inner × List Control :=
  let m := modifyValue s.controls address value
  let s' : Inner := { s with controls := m }
  match lookupCtl m address with
  | some control => (s', if s.callback then [control] else [])
  | none => (s', [])

/-- An event delivered by the external library through the `EventBridge`:
either a description (`ondesc` → `on_parameter`) or a value change
(`onval` → `on_value`). -/
inductive Event
  | desc (address : Address) (control : Control)
  | val (address : Address) (value : Nat)
deriving DecidableEq, Repr

/-- Whether an event is a description event. -/
def Event.isDesc : Event → Bool
  | .desc _ _ => true
  | .val _ _ => false

/-- Dispatch one event to the registry. -/
def step (s : Inner) : Event → Inner × List Control
  | .desc a c => on_parameter s a c
  | .val a v => on_value s a v

/-- Run a sequence of events against the registry, accumulating the list of
callback invocations in delivery order. -/
def run (s : Inner) : List Event → Inner × List Control
  | [] => (s, [])
  | e :: es =>
    let r := step s e
    let r' := run r.1 es
    (r'.1, r.2 ++ r'.2)

/-- The last description delivered for an address in a description sequence. -/
def lastDesc : List (Address × Control) → Address → Option Control
  | [], _ => none
  | (a', c) :: rest, a =>
    match lastDesc rest a with
    | some c' => some c'
    | none => if a' = a then some c else none

/-- The last value delivered for an address in a value-event sequence. -/
def lastVal : List (Address × Nat) → Address → Option Nat
  | [], _ => none
  | (a', v) :: rest, a =>
    match lastVal rest a with
    | some v' => some v'
    | none => if a' = a then some v else none

/-- The payload of a `sioctl_desc` record as `ondesc` reads it
(lib.rs:332-336): the control address and the already-decoded `name`,
`group` and `func` strings. -/
structure DescEvent where
  addr : Address
  name : String
  group : String
  func : String
deriving DecidableEq, Repr

/-- The FFI value-callback `extern "C" fn onval(ptr, addr, value)`
(lib.rs:318-326).  `ptrNull` models whether the context pointer is null:
`(ptr as *const Shared).as_ref()` yields `None` on a null pointer and the
body does nothing.  Otherwise `value: c_uint` is truncated by `value as u8`
(i.e. reduced `% 256`) and passed to `Shared::on_value`. -/
def onval (ptrNull : Bool) (s : Inner) (addr : Address) (value : Nat) :
    Inner × List Control :=
  if ptrNull then (s, [])
  else on_value s addr (value % 256)

/-- The FFI description-callback `extern "C" fn ondesc(ptr, desc, value)`
(lib.rs:328-349).  A null `desc` pointer (checked first) or a null context
pointer makes the body do nothing.  Otherwise the `c_int` value is truncated
by `value as u8` (two's complement: `(value % 256).toNat` of the `Int`) and
the decoded control is upserted via `Shared::on_parameter`. -/
def ondesc (ptrNull : Bool) (descNull : Bool) (s : Inner) (d : DescEvent)
    (value : Int) : Inner × List Control :=
  if descNull then (s, [])
  else if ptrNull then (s, [])
  else on_parameter s d.addr
    { group := d.group, name := d.name, func := d.func,
      value := (value % 256).toNat }

/-- The observable resource-release steps of a watcher shutdown:
closing the cancellation write-end `close_tx` (lib.rs:267), joining the
background thread (lib.rs:268), and — as part of that thread's exit —
dropping the `Handle`, which calls `sioctl_close` (lib.rs:88-94, released
when `polling_thread` returns since the thread owns it, lib.rs:279). -/
inductive ShutdownEffect
  | closeCancelTx
  | joinThread
  | releaseDevice
deriving DecidableEq, Repr

/-- `pub struct Watcher` (lib.rs:251-255), reduced to the one field `join`
inspects: `threadPending = true` iff `thread_handle` is `Some(..)`. -/
structure Watcher where
  threadPending : Bool
deriving DecidableEq, Repr

/-- `Watcher::join` (lib.rs:262-270).  `mem::replace(&mut self.thread_handle,
None)` takes the handle: if it was `Some`, the cancellation write-end is
closed, the thread is joined, and the joined thread's exit releases the
device handle; if it was already `None`, nothing happens.  Returns the new
watcher state and the list of shutdown effects performed by this call. -/
def Watcher.join : Watcher → Watcher × List ShutdownEffect
  | ⟨true⟩ =>
    (⟨false⟩, [ShutdownEffect.closeCancelTx, ShutdownEffect.joinThread,
               ShutdownEffect.releaseDevice])
  | ⟨false⟩ => (⟨false⟩, [])

/-- `impl Drop for Watcher` (lib.rs:273-277): dropping calls `self.join()`;
the effects of the drop are the effects of that final join. -/
def Watcher.dropEffects (w : Watcher) : List ShutdownEffect := w.join.2

/-- Run `n` consecutive explicit `join()` calls, accumulating effects. -/
def runJoins : Watcher → Nat → Watcher × List ShutdownEffect
  | w, 0 => (w, [])
  | w, n + 1 =>
    let r := w.join
    let r' := runJoins r.1 n
    (r'.1, r.2 ++ r'.2)

/-- `libc::SIGHUP` — the signal number, value 1 on every Unix.  The source
uses it as a mask over `poll(2)` revents bitmasks (lib.rs:305, 311). -/
def SIGHUP : Nat := 1

/-- The `poll(2)` input-readiness event flag `POLLIN = 0x001`. -/
def POLLIN : Nat := 1

/-- The `poll(2)` hang-up event flag `POLLHUP = 0x010`. -/
def POLLHUP : Nat := 16

/-- Outcome of one iteration of the `loop` in `polling_thread`
(lib.rs:296-314) after a successful `poll`: either the loop `break`s before
calling `sioctl_revents` (the cancellation branch, which also closes
`close_rx`), `break`s after having delivered events via `sioctl_revents`, or
goes round again. -/
inductive LoopDecision
  | stopBeforeDeliver
  | stopAfterDeliver
  | continueLoop
deriving DecidableEq, Repr

/-- One iteration of the `polling_thread` loop body after `poll` succeeded
(lib.rs:304-313), as a function of the revents reported for the cancellation
descriptor `pollfds[close_nfd]` and the bitmask returned by
`sioctl_revents`.  The source tests both masks against `SIGHUP`:
`pollfds[close_nfd].revents & SIGHUP > 0` and `revents & SIGHUP > 0`. -/
def loopIteration (closeRevents : Nat) (sioctlRevents : Nat) : LoopDecision :=
  if closeRevents &&& SIGHUP > 0 then LoopDecision.stopBeforeDeliver
  else if sioctlRevents &&& SIGHUP > 0 then LoopDecision.stopAfterDeliver
  else LoopDecision.continueLoop

/-- `libc::EINTR`, value 4 on Linux and the BSDs. -/
def EINTR : Nat := 4

/-- One result of the `poll` call in `polling_thread` (lib.rs:297): either a
non-negative return, or a negative return together with the `errno` value
read right after. -/
inductive PollResult
  | ready
  | failed (e : Nat)
deriving DecidableEq, Repr

/-- Outcome of the `while poll(..) < 0` retry loop (lib.rs:297-302): the loop
either falls through to the rest of the iteration (`proceeded`) or panics
with the offending errno (`panicked e`). -/
inductive WaitOutcome
  | proceeded
  | panicked (e : Nat)
deriving DecidableEq, Repr

/-- The `while poll(..) < 0 { if err != EINTR { panic } }` retry loop
(lib.rs:297-302), run against a sequence of successive `poll` outcomes.
`none` means the supplied outcome sequence was exhausted while still
retrying. -/
def pollWait : List PollResult → Option WaitOutcome
  | [] => none
  | PollResult.ready :: _ => some WaitOutcome.proceeded
  | PollResult.failed e :: rest =>
    if e = EINTR then pollWait rest else some (WaitOutcome.panicked e)

/-- Concrete control used to instantiate theorems on concrete inputs. -/
def sampleControl : Control :=
  { group := "mixer", name := "vol", func := "level", value := 80 }

/-- A second concrete control at another address. -/
def sampleControl2 : Control :=
  { group := "mixer", name := "vol2", func := "level", value := 64 }

/-- A concrete populated registry with a registered callback. -/
def sampleInner : Inner :=
  { controls := [(1, sampleControl), (2, sampleControl2)], callback := true }

/-- A concrete description burst. -/
def descs₀ : List (Address × Control) := [(1, sampleControl), (2, sampleControl2)]

/-- A concrete value-event sequence referencing a described address. -/
def vals₀ : List (Address × Nat) := [(1, 90)]

/-! Basic lemmas about the association-list registry operations. -/

theorem lookupCtl_insertCtl (a : Address) (c : Control) (a' : Address) :
    ∀ m : List (Address × Control),
      lookupCtl (insertCtl m a c) a' = if a = a' then some c else lookupCtl m a'
  | [] => by by_cases h : a = a' <;> simp [insertCtl, lookupCtl, h]
  | (b, cb) :: rest => by
    by_cases hba : b = a
    · subst hba
      by_cases h : b = a' <;> simp [insertCtl, lookupCtl, h]
    · by_cases h : b = a'
      · have ha : ¬ a = a' := fun hh => hba (h.trans hh.symm)
        have ha' : ¬ a' = a := fun hh => ha hh.symm
        subst h
        simp [insertCtl, lookupCtl, ha, ha']
      · simp [insertCtl, lookupCtl, hba, h, lookupCtl_insertCtl a c a' rest]

theorem lookupCtl_modifyValue (a : Address) (v : Nat) (a' : Address) :
    ∀ m : List (Address × Control),
      lookupCtl (modifyValue m a v) a' =
        if a = a' then (lookupCtl m a').map (fun c => { c with value := v })
        else lookupCtl m a'
  | [] => by by_cases h : a = a' <;> simp [modifyValue, lookupCtl, h]
  | (b, cb) :: rest => by
    by_cases hba : b = a
    · subst hba
      by_cases h : b = a' <;> simp [modifyValue, lookupCtl, h]
    · by_cases h : b = a'
      · have ha : ¬ a = a' := fun hh => hba (h.trans hh.symm)
        have ha' : ¬ a' = a := fun hh => ha hh.symm
        subst h
        simp [modifyValue, lookupCtl, ha, ha']
      · simp [modifyValue, lookupCtl, hba, h, lookupCtl_modifyValue a v a' rest]

theorem map_fst_modifyValue (a : Address) (v : Nat) :
    ∀ m : List (Address × Control),
      (modifyValue m a v).map Prod.fst = m.map Prod.fst
  | [] => rfl
  | (b, cb) :: rest => by
    by_cases hba : b = a <;>
      simp [modifyValue, hba, map_fst_modifyValue a v rest]

theorem mem_map_fst_insertCtl (a : Address) (c : Control) (a' : Address) :
    ∀ m : List (Address × Control),
      (a' ∈ (insertCtl m a c).map Prod.fst ↔ a' = a ∨ a' ∈ m.map Prod.fst)
  | [] => by simp [insertCtl]
  | (b, cb) :: rest => by
    by_cases hba : b = a
    · subst hba
      simp [insertCtl]
    · simp only [insertCtl]
      rw [if_neg hba]
      simp only [List.map_cons, List.mem_cons, mem_map_fst_insertCtl a c a' rest]
      tauto

theorem nodup_map_fst_insertCtl (a : Address) (c : Control) :
    ∀ m : List (Address × Control),
      (m.map Prod.fst).Nodup → ((insertCtl m a c).map Prod.fst).Nodup
  | [] => by simp [insertCtl]
  | (b, cb) :: rest => by
    intro hnd
    simp only [List.map_cons, List.nodup_cons] at hnd
    by_cases hba : b = a
    · subst hba
      simpa [insertCtl] using hnd
    · simp only [insertCtl]
      rw [if_neg hba]
      simp only [List.map_cons, List.nodup_cons]
      refine ⟨?_, nodup_map_fst_insertCtl a c rest hnd.2⟩
      rw [mem_map_fst_insertCtl]
      rintro (h | h)
      · exact hba h
      · exact hnd.1 h

theorem lookupCtl_isSome_iff (a : Address) :
    ∀ m : List (Address × Control),
      ((lookupCtl m a).isSome = true ↔ a ∈ m.map Prod.fst)
  | [] => by simp [lookupCtl]
  | (b, cb) :: rest => by
    by_cases hba : b = a
    · subst hba
      simp [lookupCtl]
    · have h2 : ¬ a = b := fun h => hba h.symm
      simp [lookupCtl, hba, h2, lookupCtl_isSome_iff a rest]

theorem lookupCtl_some_mem_snd (a : Address) (c : Control) :
    ∀ m : List (Address × Control),
      lookupCtl m a = some c → c ∈ m.map Prod.snd
  | [] => by simp [lookupCtl]
  | (b, cb) :: rest => by
    intro h
    simp only [lookupCtl] at h
    by_cases hba : b = a
    · rw [if_pos hba] at h
      injection h with h2
      subst h2
      simp
    · rw [if_neg hba] at h
      simp only [List.map_cons, List.mem_cons]
      exact Or.inr (lookupCtl_some_mem_snd a c rest h)

theorem modifyValue_absent (a : Address) (v : Nat) :
    ∀ m : List (Address × Control),
      lookupCtl m a = none → modifyValue m a v = m
  | [] => by simp [modifyValue]
  | (b, cb) :: rest => by
    by_cases hba : b = a
    · simp [lookupCtl, hba]
    · simp only [lookupCtl, hba, if_neg, not_false_iff, modifyValue]
      exact fun h => by rw [modifyValue_absent a v rest h]

/-! Lemmas about the shape of `on_value` and event runs. -/

theorem on_value_fst (s : Inner) (a : Address) (v : Nat) :
    (on_value s a v).1 = { s with controls := modifyValue s.controls a v } := by
  cases h : lookupCtl (modifyValue s.controls a v) a <;> simp [on_value, h]

theorem on_value_snd (s : Inner) (a : Address) (v : Nat) (c : Control)
    (h : lookupCtl s.controls a = some c) :
    (on_value s a v).2 = if s.callback then [{ c with value := v }] else [] := by
  have hl : lookupCtl (modifyValue s.controls a v) a = some { c with value := v } := by
    rw [lookupCtl_modifyValue, if_pos rfl, h]
    rfl
  simp [on_value, hl]

theorem run_append (es₁ es₂ : List Event) (s : Inner) :
    run s (es₁ ++ es₂) =
      ((run (run s es₁).1 es₂).1, (run s es₁).2 ++ (run (run s es₁).1 es₂).2) := by
  induction es₁ generalizing s with
  | nil => simp [run]
  | cons e es ih => simp [run, ih, List.append_assoc]

theorem run_append_fst (es₁ es₂ : List Event) (s : Inner) :
    (run s (es₁ ++ es₂)).1 = (run (run s es₁).1 es₂).1 := by
  rw [run_append]

theorem run_descs_lookup (descs : List (Address × Control)) :
    ∀ (s : Inner) (a : Address),
      lookupCtl ((run s (descs.map (fun p => Event.desc p.1 p.2))).1).controls a =
        match lastDesc descs a with
        | some c => some c
        | none => lookupCtl s.controls a := by
  induction descs with
  | nil => intro s a; simp [run, lastDesc]
  | cons p rest ih =>
    intro s a
    obtain ⟨b, cb⟩ := p
    simp only [List.map_cons, run, step, on_parameter]
    rw [ih]
    cases hld : lastDesc rest a with
    | some c' => simp [lastDesc, hld]
    | none =>
      simp only [lastDesc, hld]
      rw [lookupCtl_insertCtl]
      by_cases hba : b = a <;> simp [hba]

theorem run_descs_nodup (descs : List (Address × Control)) :
    ∀ s : Inner, (s.controls.map Prod.fst).Nodup →
      ((((run s (descs.map (fun p => Event.desc p.1 p.2))).1).controls.map
        Prod.fst)).Nodup := by
  induction descs with
  | nil => intro s h; simpa [run] using h
  | cons p rest ih =>
    intro s h
    obtain ⟨b, cb⟩ := p
    simp only [List.map_cons, run, step, on_parameter]
    exact ih _ (nodup_map_fst_insertCtl b cb s.controls h)

theorem lastDesc_isSome_iff (a : Address) :
    ∀ descs : List (Address × Control),
      ((lastDesc descs a).isSome = true ↔ a ∈ descs.map Prod.fst)
  | [] => by simp [lastDesc]
  | (b, cb) :: rest => by
    cases hld : lastDesc rest a with
    | some c' =>
      have hm : a ∈ rest.map Prod.fst :=
        (lastDesc_isSome_iff a rest).1 (by simp [hld])
      simp [lastDesc, hld, hm]
    | none =>
      have h2 : a ∉ rest.map Prod.fst := by
        rw [← lastDesc_isSome_iff a rest, hld]
        simp
      by_cases hba : b = a
      · subst hba
        simp [lastDesc, hld]
      · have h3 : ¬ a = b := fun h => hba h.symm
        simp [lastDesc, hld, hba, h2, h3]

theorem run_vals_lookup (vals : List (Address × Nat)) :
    ∀ (s : Inner) (a : Address),
      lookupCtl ((run s (vals.map (fun p => Event.val p.1 p.2))).1).controls a =
        match lookupCtl s.controls a with
        | some c => some { c with value := (lastVal vals a).getD c.value }
        | none => none := by
  induction vals with
  | nil =>
    intro s a
    cases hc : lookupCtl s.controls a with
    | none => simp [run, hc]
    | some c =>
      cases c
      simp [run, hc, lastVal]
  | cons p rest ih =>
    intro s a
    obtain ⟨b, v₀⟩ := p
    simp only [List.map_cons, run, step]
    rw [on_value_fst, ih]
    simp only []
    rw [lookupCtl_modifyValue]
    cases hc : lookupCtl s.controls a with
    | none => by_cases hba : b = a <;> simp [hba, hc]
    | some c =>
      by_cases hba : b = a
      · subst hba
        cases hlv : lastVal rest b with
        | some v' => simp [hc, lastVal, hlv]
        | none => simp [hc, lastVal, hlv]
      · cases hlv : lastVal rest a with
        | some v' => simp [hba, hc, lastVal, hlv]
        | none => simp [hba, hc, lastVal, hlv]

theorem run_vals_map_fst (vals : List (Address × Nat)) :
    ∀ s : Inner,
      ((run s (vals.map (fun p => Event.val p.1 p.2))).1).controls.map Prod.fst =
        s.controls.map Prod.fst := by
  induction vals with
  | nil => intro s; simp [run]
  | cons p rest ih =>
    intro s
    obtain ⟨b, v⟩ := p
    simp only [List.map_cons, run, step]
    rw [on_value_fst, ih]
    exact map_fst_modifyValue b v s.controls

/-- the state of the registry after a burst of descriptions followed by a
sequence of value events, looked up at any address: the last description,
with its value replaced by the last delivered value if any. -/
theorem final_lookup (descs : List (Address × Control))
    (vals : List (Address × Nat)) (a : Address) :
    lookupCtl ((run emptyInner (descs.map (fun p => Event.desc p.1 p.2) ++
        vals.map (fun p => Event.val p.1 p.2))).1).controls a =
      (lastDesc descs a).map
        (fun c => { c with value := (lastVal vals a).getD c.value }) := by
  rw [run_append_fst, run_vals_lookup, run_descs_lookup]
  cases hld : lastDesc descs a with
  | none => simp [emptyInner, lookupCtl]
  | some c => simp

theorem final_nodup (descs : List (Address × Control))
    (vals : List (Address × Nat)) :
    (((run emptyInner (descs.map (fun p => Event.desc p.1 p.2) ++
        vals.map (fun p => Event.val p.1 p.2))).1).controls.map Prod.fst).Nodup := by
  rw [run_append_fst, run_vals_map_fst]
  exact run_descs_nodup descs emptyInner (by simp [emptyInner])

theorem final_mem (descs : List (Address × Control))
    (vals : List (Address × Nat)) (a : Address) :
    a ∈ ((run emptyInner (descs.map (fun p => Event.desc p.1 p.2) ++
        vals.map (fun p => Event.val p.1 p.2))).1).controls.map Prod.fst ↔
      a ∈ descs.map Prod.fst := by
  rw [← lookupCtl_isSome_iff, final_lookup, ← lastDesc_isSome_iff]
  cases lastDesc descs a <;> simp

/-- description-only event runs invoke no callback and keep the slot. -/
theorem run_descs_no_callback : ∀ (es : List Event) (s : Inner),
    (∀ e ∈ es, e.isDesc = true) →
    (run s es).2 = [] ∧ ((run s es).1).callback = s.callback
  | [], s, _ => by simp [run]
  | e :: rest, s, h => by
    cases e with
    | val a v =>
      have he := h _ (List.mem_cons_self _ _)
      simp [Event.isDesc] at he
    | desc a c =>
      have hr := run_descs_no_callback rest
        ({ s with controls := insertCtl s.controls a c })
        (fun e hme => h e (List.mem_cons_of_mem _ hme))
      simp only [run, step, on_parameter]
      exact ⟨by simp [hr.1], hr.2⟩

/-- a joined watcher never produces further effects. -/
theorem runJoins_stopped : ∀ n : Nat, runJoins ⟨false⟩ n = (⟨false⟩, [])
  | 0 => rfl
  | n + 1 => by simp [runJoins, Watcher.join, runJoins_stopped n]

/-- any prefix of EINTR failures is transparent to the poll retry loop. -/
theorem pollWait_eintr_skipped : ∀ (errs : List Nat), (∀ e ∈ errs, e = EINTR) →
    ∀ rest : List PollResult,
      pollWait (errs.map PollResult.failed ++ rest) = pollWait rest
  | [], _, rest => rfl
  | e :: es, h, rest => by
    have he : e = EINTR := h e (List.mem_cons_self _ _)
    subst he
    simp only [List.map_cons, List.cons_append, pollWait, if_true]
    exact pollWait_eintr_skipped es (fun x hx => h x (List.mem_cons_of_mem _ hx)) rest

/-! The claim theorems. -/

/-- C1: for every sequence of description events followed by value events each
referencing a previously described address, the registry reached from the
empty registry holds exactly one Control per described address (keys are
duplicate-free and are exactly the described addresses); the Control at each
address is the last description delivered for it with its `value` replaced by
the last delivered value (or kept at the described initial value if no value
event targeted it); and the `controls()` snapshot contains each such
Control. -/
theorem claim_snapshot_last_value (descs : List (Address × Control))
    (vals : List (Address × Nat))
    (hvals : ∀ p ∈ vals, p.1 ∈ descs.map Prod.fst) :
    (((run emptyInner (descs.map (fun p => Event.desc p.1 p.2) ++
        vals.map (fun p => Event.val p.1 p.2))).1).controls.map Prod.fst).Nodup ∧
    (∀ a : Address,
      a ∈ ((run emptyInner (descs.map (fun p => Event.desc p.1 p.2) ++
        vals.map (fun p => Event.val p.1 p.2))).1).controls.map Prod.fst ↔
        a ∈ descs.map Prod.fst) ∧
    (∀ a : Address,
      lookupCtl ((run emptyInner (descs.map (fun p => Event.desc p.1 p.2) ++
        vals.map (fun p => Event.val p.1 p.2))).1).controls a =
        (lastDesc descs a).map
          (fun c => { c with value := (lastVal vals a).getD c.value })) ∧
    (∀ (a : Address) (c : Control), lastDesc descs a = some c →
      { c with value := (lastVal vals a).getD c.value } ∈
        controls ((run emptyInner (descs.map (fun p => Event.desc p.1 p.2) ++
          vals.map (fun p => Event.val p.1 p.2))).1)) := by
  refine ⟨final_nodup descs vals, fun a => final_mem descs vals a,
    fun a => final_lookup descs vals a, fun a c hc => ?_⟩
  have h := final_lookup descs vals a
  rw [hc] at h
  exact lookupCtl_some_mem_snd _ _ _ h

/-- witness for C1 at a concrete two-control burst and one value event. -/
theorem claim_snapshot_last_value_witness :
    (∀ p ∈ vals₀, p.1 ∈ descs₀.map Prod.fst) ∧
    ((((run emptyInner (descs₀.map (fun p => Event.desc p.1 p.2) ++
        vals₀.map (fun p => Event.val p.1 p.2))).1).controls.map Prod.fst).Nodup ∧
    (∀ a : Address,
      a ∈ ((run emptyInner (descs₀.map (fun p => Event.desc p.1 p.2) ++
        vals₀.map (fun p => Event.val p.1 p.2))).1).controls.map Prod.fst ↔
        a ∈ descs₀.map Prod.fst) ∧
    (∀ a : Address,
      lookupCtl ((run emptyInner (descs₀.map (fun p => Event.desc p.1 p.2) ++
        vals₀.map (fun p => Event.val p.1 p.2))).1).controls a =
        (lastDesc descs₀ a).map
          (fun c => { c with value := (lastVal vals₀ a).getD c.value })) ∧
    (∀ (a : Address) (c : Control), lastDesc descs₀ a = some c →
      { c with value := (lastVal vals₀ a).getD c.value } ∈
        controls ((run emptyInner (descs₀.map (fun p => Event.desc p.1 p.2) ++
          vals₀.map (fun p => Event.val p.1 p.2))).1))) :=
  ⟨by decide, claim_snapshot_last_value descs₀ vals₀ (by decide)⟩

/-- C2: with a callback registered and an address present with record `c`,
delivering the values `vs` for that address invokes the callback exactly
`vs.length` times, the i-th invocation receiving exactly `c` with its value
field already replaced by the i-th delivered value. -/
theorem claim_callback_once_per_value (s : Inner) (a : Address) (c : Control)
    (vs : List Nat) (hcb : s.callback = true)
    (hc : lookupCtl s.controls a = some c) :
    (run s (vs.map (fun v => Event.val a v))).2 =
      vs.map (fun v => { c with value := v }) := by
  induction vs generalizing s c with
  | nil => simp [run]
  | cons v rest ih =>
    simp only [List.map_cons, run, step]
    rw [on_value_snd s a v c hc, hcb]
    rw [on_value_fst]
    have hc' : lookupCtl
        ({ s with controls := modifyValue s.controls a v } : Inner).controls a =
        some { c with value := v } := by
      show lookupCtl (modifyValue s.controls a v) a = _
      rw [lookupCtl_modifyValue, if_pos rfl, hc]
      rfl
    rw [ih { s with controls := modifyValue s.controls a v } { c with value := v }
      hcb hc']
    simp

/-- witness for C2: two value events on a registry with a callback. -/
theorem claim_callback_once_per_value_witness :
    (sampleInner.callback = true ∧
      lookupCtl sampleInner.controls 1 = some sampleControl) ∧
    (run sampleInner ([90, 10].map (fun v => Event.val 1 v))).2 =
      [90, 10].map (fun v => { sampleControl with value := v }) :=
  ⟨⟨by decide, by decide⟩,
    claim_callback_once_per_value sampleInner 1 sampleControl [90, 10]
      (by decide) (by decide)⟩

/-- C3: a value event for an address absent from the registry is a complete
no-op: the registry state (addresses, every Control, the callback slot) is
returned unchanged and the callback invocation list is empty. -/
theorem claim_unknown_value_noop (s : Inner) (a : Address) (v : Nat)
    (h : lookupCtl s.controls a = none) :
    on_value s a v = (s, []) := by
  have hm := modifyValue_absent a v s.controls h
  simp [on_value, hm, h]

/-- witness for C3 at an address the sample registry does not contain. -/
theorem claim_unknown_value_noop_witness :
    lookupCtl sampleInner.controls 7 = none ∧
    on_value sampleInner 7 3 = (sampleInner, []) :=
  ⟨by decide, claim_unknown_value_noop sampleInner 7 3 (by decide)⟩

/-- C4: a value event for a present address replaces only the `value` field
of the Control stored there; its `group`, `name` and `func` fields, the
Controls at all other addresses, the key set of the registry and the callback
slot are all unchanged. -/
theorem claim_value_frame (s : Inner) (a : Address) (v : Nat) (c : Control)
    (h : lookupCtl s.controls a = some c) :
    lookupCtl ((on_value s a v).1).controls a = some { c with value := v } ∧
    (∀ a' : Address, a' ≠ a →
      lookupCtl ((on_value s a v).1).controls a' = lookupCtl s.controls a') ∧
    ((on_value s a v).1).controls.map Prod.fst = s.controls.map Prod.fst ∧
    ((on_value s a v).1).callback = s.callback := by
  rw [on_value_fst]
  refine ⟨?_, ?_, map_fst_modifyValue a v s.controls, rfl⟩
  · show lookupCtl (modifyValue s.controls a v) a = _
    rw [lookupCtl_modifyValue, if_pos rfl, h]
    rfl
  · intro a' ha'
    show lookupCtl (modifyValue s.controls a v) a' = _
    rw [lookupCtl_modifyValue, if_neg (fun hh => ha' hh.symm)]

/-- witness for C4 at address 1 of the sample registry. -/
theorem claim_value_frame_witness :
    lookupCtl sampleInner.controls 1 = some sampleControl ∧
    (lookupCtl ((on_value sampleInner 1 90).1).controls 1 =
      some { sampleControl with value := 90 } ∧
    (∀ a' : Address, a' ≠ 1 →
      lookupCtl ((on_value sampleInner 1 90).1).controls a' =
        lookupCtl sampleInner.controls a') ∧
    ((on_value sampleInner 1 90).1).controls.map Prod.fst =
      sampleInner.controls.map Prod.fst ∧
    ((on_value sampleInner 1 90).1).callback = sampleInner.callback) :=
  ⟨by decide, claim_value_frame sampleInner 1 90 sampleControl (by decide)⟩

/-- C5: `Watcher::join` is idempotent — starting from a watcher whose
background thread is pending, any positive number of `join()` calls followed
by the implicit join performed by `Drop` produces the shutdown sequence
(close of the cancellation write-end, join of the background task, release of
the device handle) exactly once, the watcher ends with no pending thread, and
a join on an already-joined watcher is a no-op. -/
theorem claim_join_idempotent (n : Nat) (h : 0 < n) :
    (runJoins ⟨true⟩ n).2 ++ ((runJoins ⟨true⟩ n).1).dropEffects =
      [ShutdownEffect.closeCancelTx, ShutdownEffect.joinThread,
       ShutdownEffect.releaseDevice] ∧
    (runJoins ⟨true⟩ n).1 = ⟨false⟩ ∧
    (∀ w : Watcher, (w.join.1).join = (w.join.1, [])) := by
  obtain ⟨m, rfl⟩ : ∃ m, n = m + 1 :=
    ⟨n - 1, (Nat.succ_pred_eq_of_pos h).symm⟩
  refine ⟨?_, ?_, ?_⟩
  · simp [runJoins, Watcher.join, runJoins_stopped, Watcher.dropEffects]
  · simp [runJoins, Watcher.join, runJoins_stopped]
  · intro w
    obtain ⟨tp⟩ := w
    cases tp <;> rfl

/-- witness for C5 with two explicit joins before the drop. -/
theorem claim_join_idempotent_witness :
    0 < 2 ∧
    ((runJoins ⟨true⟩ 2).2 ++ ((runJoins ⟨true⟩ 2).1).dropEffects =
      [ShutdownEffect.closeCancelTx, ShutdownEffect.joinThread,
       ShutdownEffect.releaseDevice] ∧
    (runJoins ⟨true⟩ 2).1 = ⟨false⟩ ∧
    (∀ w : Watcher, (w.join.1).join = (w.join.1, []))) :=
  ⟨by decide, claim_join_idempotent 2 (by decide)⟩

/-- C6: the polling loop's termination checks mask poll revents with the
signal number `SIGHUP` (= 1), which as a poll event flag is `POLLIN`, not the
hang-up flag `POLLHUP` (= 0x10).  Consequently, when `sioctl_revents` reports
exactly the hang-up condition `POLLHUP`, the loop body decides to loop again
rather than stop, and when it reports plain input readiness `POLLIN` with no
hang-up, the loop stops — contradicting the claim that the loop returns
precisely when the returned event flags indicate the session has hung up. -/
theorem claim_hangup_check_divergence :
    loopIteration 0 POLLHUP = LoopDecision.continueLoop ∧
    POLLHUP &&& POLLHUP > 0 ∧
    loopIteration 0 POLLIN = LoopDecision.stopAfterDeliver ∧
    POLLIN &&& POLLHUP = 0 := by decide

/-- C7: the `poll` retry loop retries exactly on EINTR — any prefix of
interrupted waits (`errno = EINTR`) is transparent, a failure with any other
errno terminates the task abnormally at once (ignoring whatever outcomes
would have followed, i.e. no recovery is attempted), and a successful wait
proceeds into the loop body. -/
theorem claim_eintr_retry (errs : List Nat) (h : ∀ e ∈ errs, e = EINTR) :
    (∀ rest : List PollResult,
      pollWait (errs.map PollResult.failed ++ rest) = pollWait rest) ∧
    (∀ (e : Nat) (rest : List PollResult), e ≠ EINTR →
      pollWait (PollResult.failed e :: rest) = some (WaitOutcome.panicked e)) ∧
    pollWait (errs.map PollResult.failed ++ [PollResult.ready]) =
      some WaitOutcome.proceeded := by
  refine ⟨pollWait_eintr_skipped errs h, ?_, ?_⟩
  · intro e rest he
    simp only [pollWait]
    rw [if_neg he]
  · rw [pollWait_eintr_skipped errs h]
    rfl

/-- witness for C7 with two interrupted waits. -/
theorem claim_eintr_retry_witness :
    (∀ e ∈ [(4 : Nat), 4], e = EINTR) ∧
    ((∀ rest : List PollResult,
      pollWait ([(4 : Nat), 4].map PollResult.failed ++ rest) = pollWait rest) ∧
    (∀ (e : Nat) (rest : List PollResult), e ≠ EINTR →
      pollWait (PollResult.failed e :: rest) = some (WaitOutcome.panicked e)) ∧
    pollWait ([(4 : Nat), 4].map PollResult.failed ++ [PollResult.ready]) =
      some WaitOutcome.proceeded) :=
  ⟨by decide, claim_eintr_retry [4, 4] (by decide)⟩

/-- C8 counterexample: `onval` truncates (`value as u8`), it does not clamp.
Delivering the value 300 for address 1 stores 44 (= 300 % 256), not the
clamped one-byte value `min 300 255 = 255`. -/
theorem claim_value_clamped_counterexample :
    (lookupCtl ((onval false sampleInner 1 300).1).controls 1).map
        Control.value = some 44 ∧
    ¬ ((lookupCtl ((onval false sampleInner 1 300).1).controls 1).map
        Control.value = some (min 300 255)) := by decide

/-- C8 (amended): for every value event delivered through `onval` for a
present address, the value stored in the Control — and the value carried by
every Control passed to the callback — is the event's unsigned value
truncated to its low byte, i.e. reduced modulo 256 (which agrees with the
claim's clamping only for values that already fit in one byte). -/
theorem claim_value_truncated (s : Inner) (a : Address) (v : Nat) (c : Control)
    (h : lookupCtl s.controls a = some c) :
    lookupCtl ((onval false s a v).1).controls a =
      some { c with value := v % 256 } ∧
    ∀ ctl ∈ (onval false s a v).2, ctl = { c with value := v % 256 } := by
  constructor
  · show lookupCtl ((on_value s a (v % 256)).1).controls a = _
    rw [on_value_fst]
    show lookupCtl (modifyValue s.controls a (v % 256)) a = _
    rw [lookupCtl_modifyValue, if_pos rfl, h]
    rfl
  · intro ctl hctl
    have h2 := on_value_snd s a (v % 256) c h
    rw [show (onval false s a v).2 = (on_value s a (v % 256)).2 from rfl, h2]
      at hctl
    cases hb : s.callback
    · rw [hb] at hctl
      simp at hctl
    · rw [hb] at hctl
      simpa using hctl

/-- witness for the amended C8 at the out-of-range value 300. -/
theorem claim_value_truncated_witness :
    lookupCtl sampleInner.controls 1 = some sampleControl ∧
    (lookupCtl ((onval false sampleInner 1 300).1).controls 1 =
      some { sampleControl with value := 300 % 256 } ∧
    ∀ ctl ∈ (onval false sampleInner 1 300).2,
      ctl = { sampleControl with value := 300 % 256 }) :=
  ⟨by decide, claim_value_truncated sampleInner 1 300 sampleControl (by decide)⟩

/-- C9: the FFI entry points are total on null pointers — `onval` with a null
context pointer, and `ondesc` with a null descriptor pointer or a null
context pointer, return the registry unchanged and invoke no callback; in
this embedding the null case is modelled as a total function branch, so no
dereference of the null pointer occurs. -/
theorem claim_ffi_null_noop (s : Inner) (a v : Nat) (d : DescEvent)
    (pn dn : Bool) (x : Int) :
    onval true s a v = (s, []) ∧
    ondesc pn true s d x = (s, []) ∧
    ondesc true dn s d x = (s, []) := by
  refine ⟨rfl, rfl, ?_⟩
  cases dn <;> rfl

/-- C10: description events never invoke the change callback — a run made
only of description events (including re-descriptions of already-present
addresses, with the callback registered) produces an empty callback
invocation list and leaves the callback slot unchanged; likewise the `ondesc`
entry point never produces a callback invocation and never touches the
slot. -/
theorem claim_description_no_callback (es : List Event) (s : Inner)
    (h : ∀ e ∈ es, e.isDesc = true) :
    ((run s es).2 = [] ∧ ((run s es).1).callback = s.callback) ∧
    (∀ (pn dn : Bool) (d : DescEvent) (x : Int),
      (ondesc pn dn s d x).2 = [] ∧
      ((ondesc pn dn s d x).1).callback = s.callback) := by
  refine ⟨run_descs_no_callback es s h, ?_⟩
  intro pn dn d x
  cases pn <;> cases dn <;> simp [ondesc, on_parameter]

/-- witness for C10: a re-description of address 1 with the callback
registered. -/
theorem claim_description_no_callback_witness :
    (∀ e ∈ [Event.desc 1 sampleControl2, Event.desc 1 sampleControl],
      e.isDesc = true) ∧
    (((run sampleInner [Event.desc 1 sampleControl2, Event.desc 1 sampleControl]).2
        = [] ∧
      ((run sampleInner
        [Event.desc 1 sampleControl2, Event.desc 1 sampleControl]).1).callback =
        sampleInner.callback) ∧
    (∀ (pn dn : Bool) (d : DescEvent) (x : Int),
      (ondesc pn dn sampleInner d x).2 = [] ∧
      ((ondesc pn dn sampleInner d x).1).callback = sampleInner.callback)) :=
  ⟨by decide,
    claim_description_no_callback
      [Event.desc 1 sampleControl2, Event.desc 1 sampleControl] sampleInner
      (by decide)⟩

end SioctlModel
